import Mathlib

/-!
Verification of the ContextPilot VS Code extension core
(`src/extension.ts`): version gating, external-command resolution,
output parsing, commit sorting, the diff-bundle pipeline, and the
incremental-reindex state machine, shallowly embedded in Lean.

JavaScript strings are modelled as `String`/`List Char`; the handful of
JS string primitives the source uses (`trim`, `split`, regular-pattern
matching with the concrete patterns appearing in the source) are
implemented character by character below, following ECMAScript
semantics for those concrete patterns.
-/

set_option maxRecDepth 8192

namespace ContextPilot

/-- Whitespace recognised by JS `trim` and the `\s` class, restricted to
the ASCII characters that can occur in the outputs modelled here. -/
def jsIsSpace (c : Char) : Bool :=
  c = ' ' || c = '\t' || c = '\n' || c = '\r' || c = '\x0b' || c = '\x0c'

/-- JS `String.prototype.trim` on a character list: strip leading and
trailing whitespace. -/
def trimChars (l : List Char) : List Char :=
  ((l.dropWhile jsIsSpace).reverse.dropWhile jsIsSpace).reverse

/-- JS `String.prototype.trim`. -/
def jsTrim (s : String) : String :=
  ⟨trimChars s.data⟩

/-- Maximal leading digit run and the remaining characters: the greedy
match of a leading regex token `\d+` (possibly empty). -/
def takeDigits : List Char → List Char × List Char
  | [] => ([], [])
  | c :: cs =>
    if c.isDigit then
      let (d, r) := takeDigits cs
      (c :: d, r)
    else ([], c :: cs)

/-- Numeric value of a digit run, as JS `parseInt` computes it on an
all-digit string. -/
def natOfDigits (l : List Char) : Nat :=
  l.foldl (fun n c => 10 * n + (c.toNat - 48)) 0

/-- JS `String.prototype.split` with a single-character separator. -/
def splitChar (sep : Char) : List Char → List (List Char)
  | [] => [[]]
  | c :: cs =>
    if c = sep then [] :: splitChar sep cs
    else
      match splitChar sep cs with
      | s :: rest => (c :: s) :: rest
      | [] => [[c]]

/-- Match of the regex `(\d+)\.(\d+)\.(\d+)` anchored at the start of the
character list: the three captured values and the full matched text.
The digit runs are greedy; since a digit can never satisfy the following
literal dot, the greedy run is the only possible one. -/
def matchVerAt (l : List Char) : Option ((Nat × Nat × Nat) × List Char) :=
  let (d1, r1) := takeDigits l
  if d1.isEmpty then none
  else
    match r1 with
    | '.' :: r2 =>
      let (d2, r3) := takeDigits r2
      if d2.isEmpty then none
      else
        match r3 with
        | '.' :: r4 =>
          let (d3, _) := takeDigits r4
          if d3.isEmpty then none
          else some ((natOfDigits d1, natOfDigits d2, natOfDigits d3),
                     d1 ++ '.' :: d2 ++ '.' :: d3)
        | _ => none
    | _ => none

/-- Leftmost match of `(\d+)\.(\d+)\.(\d+)`: try every start position
from the left, as the ECMAScript engine does. -/
def findVer : List Char → Option ((Nat × Nat × Nat) × List Char)
  | [] => none
  | c :: cs =>
    match matchVerAt (c :: cs) with
    | some v => some v
    | none => findVer cs

/-- `parseVersion` from `extension.ts`: first `(\d+)\.(\d+)\.(\d+)` match
in the string, or the zero version when there is none. -/
def parseVersion (versionStr : String) : Nat × Nat × Nat :=
  match findVer versionStr.data with
  | none => (0, 0, 0)
  | some (t, _) => t

/-- `isVersionCompatible` from `extension.ts`. -/
def isVersionCompatible (installed required : String) : Bool :=
  match parseVersion installed, parseVersion required with
  | (imaj, imin, ipat), (rmaj, rmin, rpat) =>
    if imaj ≠ rmaj then decide (imaj > rmaj)
    else if imin ≠ rmin then decide (imin > rmin)
    else decide (ipat ≥ rpat)

/-- The spec's compatibility order: lexicographic greater-or-equal on
(major, minor, patch), strict inequality deciding at the first
differing component. -/
def specLexGe (a b : Nat × Nat × Nat) : Prop :=
  b.1 < a.1 ∨ (a.1 = b.1 ∧ (b.2.1 < a.2.1 ∨ (a.2.1 = b.2.1 ∧ b.2.2 ≤ a.2.2)))

/-- Claim C3: `isVersionCompatible v r` holds iff the triple parsed from
`v` is lexicographically greater than or equal to the triple parsed from
`r`; a string with no version match parses to the zero version; and the
three example evaluations from the spec hold. -/
theorem isVersionCompatible_lex_spec :
    (∀ v r, isVersionCompatible v r = true ↔
      specLexGe (parseVersion v) (parseVersion r))
    ∧ (∀ v, findVer v.data = none → parseVersion v = (0, 0, 0))
    ∧ isVersionCompatible "0.9.0" "0.9.0" = true
    ∧ isVersionCompatible "0.8.9" "0.9.0" = false
    ∧ isVersionCompatible "1.0.0" "0.9.0" = true := by
  refine ⟨?_, ?_, by decide, by decide, by decide⟩
  · intro v r
    rcases hv : parseVersion v with ⟨a1, a2, a3⟩
    rcases hr : parseVersion r with ⟨b1, b2, b3⟩
    simp only [isVersionCompatible, hv, hr, specLexGe]
    by_cases h1 : a1 = b1 <;> by_cases h2 : a2 = b2
    all_goals simp [h1, h2]
  · intro v h
    simp [parseVersion, h]

/-- Witness for claim C3 at concrete inputs. -/
theorem isVersionCompatible_lex_spec_witness :
    parseVersion "no version here" = (0, 0, 0)
    ∧ (isVersionCompatible "1.0.0" "0.9.0" = true ↔
        specLexGe (parseVersion "1.0.0") (parseVersion "0.9.0")) :=
  ⟨isVersionCompatible_lex_spec.2.1 "no version here" (by decide),
   isVersionCompatible_lex_spec.1 "1.0.0" "0.9.0"⟩

/-! ### External command resolution (`exec` callbacks in `runCommand`
and in the describe step of `generateDiffsForCursorChat`) -/

/-- What one Node `exec` callback observes: whether an `error` object was
passed (the process exited with a non-zero status or could not run, with
its message), and the captured stdout and stderr. -/
structure ExecOutcome where
  exitOk : Bool
  errMsg : String
  stdout : String
  stderr : String
deriving Repr, DecidableEq

/-- The resolution logic of the `exec` callbacks at the head of
`runCommand` and of the describe call in `generateDiffsForCursorChat`:
`if (error) fail; if (stderr.length > 0 && !stdout) fail; else use
stdout`. -/
def resolveExec (o : ExecOutcome) : Except String String :=
  if o.exitOk = false then .error o.errMsg
  else if 0 < o.stderr.length ∧ o.stdout = "" then .error o.stderr
  else .ok o.stdout

theorem string_length_pos (s : String) : 0 < s.length ↔ s ≠ "" := by
  obtain ⟨l⟩ := s
  cases l with
  | nil => simp [String.length]
  | cons c cs =>
    simp only [String.length, List.length_cons]
    constructor
    · intro _ h
      have hd := congrArg String.data h
      simp at hd
    · intro _
      exact Nat.succ_pos _

/-- Claim C4: an invocation fails exactly when the process exits with a
non-zero status, or exits cleanly with non-empty stderr and empty
stdout; in every other case it resolves with the full captured
stdout. -/
theorem resolveExec_fails_iff :
    ∀ o : ExecOutcome,
      ((∃ m, resolveExec o = .error m) ↔
        (o.exitOk = false ∨ (o.exitOk = true ∧ o.stderr ≠ "" ∧ o.stdout = "")))
      ∧ (o.exitOk = true → (o.stderr = "" ∨ o.stdout ≠ "") →
          resolveExec o = .ok o.stdout) := by
  intro o
  unfold resolveExec
  rcases o with ⟨ok, em, sout, serr⟩
  cases ok <;>
    by_cases hs : serr = "" <;> by_cases ho : sout = "" <;>
      simp_all [string_length_pos]

/-- Witness for claim C4 at a concrete outcome. -/
theorem resolveExec_fails_iff_witness :
    resolveExec ⟨true, "", "out", "warning"⟩ = .ok "out" :=
  (resolveExec_fails_iff ⟨true, "", "out", "warning"⟩).2 rfl
    (Or.inr (by decide))

/-! ### Occurrence-list parsing (`runCommand`, non-desc modes) -/

/-- The separator `" - "` used by `line.split(" - ")`. -/
def sepDash : List Char := [' ', '-', ' ']

/-- The text before the first occurrence of `" - "` — element `[0]` of
the JS split; the whole line when the separator does not occur. -/
def beforeFirstSep : List Char → List Char
  | [] => []
  | c :: cs =>
    if sepDash.isPrefixOf (c :: cs) then []
    else c :: beforeFirstSep cs

/-- Whether `" - "` occurs anywhere in the line. -/
def hasSepDash : List Char → Bool
  | [] => false
  | c :: cs => sepDash.isPrefixOf (c :: cs) || hasSepDash cs

/-- Match of the regex `- (\d+) occurrences` anchored at the start of
the list: the captured count. -/
def matchOccAt (l : List Char) : Option Nat :=
  match l with
  | '-' :: ' ' :: rest =>
    let (d, r) := takeDigits rest
    if d.isEmpty then none
    else if (" occurrences").data.isPrefixOf r then some (natOfDigits d)
    else none
  | _ => none

/-- Leftmost match of `- (\d+) occurrences` in the line. -/
def findOcc : List Char → Option Nat
  | [] => none
  | c :: cs =>
    match matchOccAt (c :: cs) with
    | some n => some n
    | none => findOcc cs

/-- One quick-pick item built from an output line: the file path shown
as the label and the parsed occurrence count. -/
structure FileOccItem where
  label : String
  occurrences : Nat
deriving Repr, DecidableEq

/-- The per-line record construction in `runCommand`:
`label = line.split(" - ")[0].trim()` and the count from the first
`- (\d+) occurrences` match, defaulting to 0. -/
def parseOccLine (line : String) : FileOccItem :=
  { label := jsTrim ⟨beforeFirstSep line.data⟩
    occurrences := (findOcc line.data).getD 0 }

/-- The stdout preprocessing in `runCommand`: split on newlines, trim
each line, keep the non-empty ones. -/
def nonEmptyTrimmedLines (stdout : String) : List String :=
  (((splitChar '\n' stdout.data).map trimChars).filter
    (fun l => !l.isEmpty)).map (fun l => (⟨l⟩ : String))

/-- The full occurrence-list parse of `runCommand`. -/
def parseOccOutput (stdout : String) : List FileOccItem :=
  (nonEmptyTrimmedLines stdout).map parseOccLine

theorem hasSepDash_eq_false_beforeFirstSep {l : List Char}
    (h : hasSepDash l = false) : beforeFirstSep l = l := by
  induction l with
  | nil => rfl
  | cons c cs ih =>
    rw [hasSepDash] at h
    rcases Bool.or_eq_false_iff.mp h with ⟨h1, h2⟩
    rw [beforeFirstSep, h1]
    simp [ih h2]

theorem string_mk_data (s : String) : (⟨s.data⟩ : String) = s := by
  obtain ⟨l⟩ := s
  rfl

/-- Claim C6 counterexample: the line "foo - bar" contains no
occurrence pattern, yet the produced record's path is "foo", not the
full trimmed line "foo - bar". -/
theorem parseOccLine_cex :
    parseOccOutput "foo - bar" = [⟨"foo", 0⟩]
    ∧ findOcc ("foo - bar").data = none
    ∧ ("foo" : String) ≠ "foo - bar" := by
  refine ⟨by decide, by decide, by decide⟩

/-- Claim C6 (amended): parsing is total — one record per non-empty
trimmed line; the path is the text before the first " - " (trimmed),
which is the whole trimmed line exactly when " - " does not occur in
it; the count comes from the first `- (\d+) occurrences` match and is 0
when that pattern is absent; including the spec's two examples and the
corrected behaviour on a line containing " - " without the pattern. -/
theorem parseOccOutput_spec :
    (∀ stdout, (parseOccOutput stdout).length = (nonEmptyTrimmedLines stdout).length)
    ∧ (∀ line : String, hasSepDash line.data = false →
        (parseOccLine line).label = jsTrim line)
    ∧ (∀ line : String, findOcc line.data = none →
        (parseOccLine line).occurrences = 0)
    ∧ parseOccLine "src/a.rs - 12 occurrences" = ⟨"src/a.rs", 12⟩
    ∧ parseOccLine "weird line" = ⟨"weird line", 0⟩
    ∧ parseOccLine "foo - bar" = ⟨"foo", 0⟩ := by
  refine ⟨?_, ?_, ?_, by decide, by decide, by decide⟩
  · intro stdout
    simp [parseOccOutput]
  · intro line h
    simp [parseOccLine, hasSepDash_eq_false_beforeFirstSep h, jsTrim,
      string_mk_data]
  · intro line h
    simp [parseOccLine, h]

/-- Witness for claim C6 (amended) at concrete lines. -/
theorem parseOccOutput_spec_witness :
    (parseOccLine "weird line").label = jsTrim "weird line"
    ∧ (parseOccLine "weird line").occurrences = 0 :=
  ⟨parseOccOutput_spec.2.1 "weird line" (by decide),
   parseOccOutput_spec.2.2.1 "weird line" (by decide)⟩

/-! ### Commit descriptions: the quick-pick sort and the diff pipeline -/

/-- One parsed 5-tuple of the desc output:
(title, description, author, date, commit reference). -/
structure CommitTuple where
  title : String
  description : String
  author : String
  date : String
  ref : String
deriving Repr, DecidableEq

/-- The subtraction inside the sort comparator
`new Date(b[3]).getTime() - new Date(a[3]).getTime()`.  Date parsing is
an environment parameter `time`; `none` stands for an Invalid Date,
whose `getTime()` is NaN.  A NaN comparator value is coerced to +0 by
the ECMAScript SortCompare operation, so the NaN case yields 0. -/
def jsDateDiff : Option Int → Option Int → Int
  | some b, some a => b - a
  | some _, none => 0
  | none, _ => 0

/-- The comparator passed to `parsed.sort` in the desc branch of
`runCommand`. -/
def descCompare (time : String → Option Int) (a b : CommitTuple) : Int :=
  jsDateDiff (time b.date) (time a.date)

/-- "a stays before b" under the comparator: comparator value at most 0.
Modulo stability this determines the JS sort result for consistent
comparators. -/
def commitBefore (time : String → Option Int) (a b : CommitTuple) : Prop :=
  descCompare time a b ≤ 0

instance commitBeforeDec (time : String → Option Int) :
    DecidableRel (commitBefore time) :=
  fun a b => inferInstanceAs (Decidable (descCompare time a b ≤ 0))

/-- `parsed.sort(comparator)` in the desc branch of `runCommand`,
modelled as a stable sort (Array.prototype.sort is stable) with respect
to the code's comparator. -/
def sortCommits (time : String → Option Int) (parsed : List CommitTuple) :
    List CommitTuple :=
  List.insertionSort (commitBefore time) parsed

/-- `hash.split('/').pop() || hash` in `generateDiffsForCursorChat`:
the last '/'-separated segment, or the whole stored reference when that
segment is empty. -/
def bareCommitRef (hash : String) : String :=
  let popped := (splitChar '/' hash.data).getLastD []
  if popped.isEmpty then hash else ⟨popped⟩

/-- The per-commit block pushed onto `commitDiffs`. -/
def mkDiffBlock (c : CommitTuple) (diffOutput : String) : String :=
  "Commit: " ++ bareCommitRef c.ref ++ "\nTitle: " ++ c.title
    ++ "\nAuthor: " ++ c.author ++ "\nDate: " ++ c.date
    ++ "\n\n" ++ diffOutput ++ "\n\n---\n\n"

/-- The per-commit loop of `generateDiffsForCursorChat`.  `git` is the
`git show <bare ref> -- <file>` collaborator, returning the diff stdout
or a command failure.  Returns the accumulated `commitDiffs` blocks and
the trace of bare references passed to git, in execution order.  A
failing retrieval is caught and logged (the item is skipped); an empty
trimmed diff is skipped as well. -/
def runDiffLoop (git : String → Except String String) :
    List CommitTuple → List String × List String
  | [] => ([], [])
  | c :: rest =>
    let commitHash := bareCommitRef c.ref
    match git commitHash with
    | .error _ =>
      let (bs, calls) := runDiffLoop git rest
      (bs, commitHash :: calls)
    | .ok diffOutput =>
      let (bs, calls) := runDiffLoop git rest
      (if jsTrim diffOutput = "" then bs else mkDiffBlock c diffOutput :: bs,
       commitHash :: calls)

/-- Whether the loop keeps a commit: its retrieval succeeds and the
trimmed diff text is non-empty. -/
def diffKept (git : String → Except String String) (c : CommitTuple) : Bool :=
  match git (bareCommitRef c.ref) with
  | .error _ => false
  | .ok out => if jsTrim out = "" then false else true

/-- The block a kept commit contributes. -/
def diffBlockOf (git : String → Except String String) (c : CommitTuple) :
    String :=
  match git (bareCommitRef c.ref) with
  | .error _ => ""
  | .ok out => mkDiffBlock c out

theorem runDiffLoop_fst (git : String → Except String String) :
    ∀ l, (runDiffLoop git l).1 = (l.filter (diffKept git)).map (diffBlockOf git)
  | [] => rfl
  | c :: rest => by
    rw [runDiffLoop]
    rcases hg : git (bareCommitRef c.ref) with e | out
    · simp [List.filter_cons, diffKept, hg, runDiffLoop_fst git rest]
    · by_cases ht : jsTrim out = "" <;>
        simp [List.filter_cons, diffKept, diffBlockOf, hg, ht,
          runDiffLoop_fst git rest]

theorem runDiffLoop_snd (git : String → Except String String) :
    ∀ l, (runDiffLoop git l).2 = l.map (fun c => bareCommitRef c.ref)
  | [] => rfl
  | c :: rest => by
    rw [runDiffLoop]
    rcases hg : git (bareCommitRef c.ref) with e | out <;>
      simp [hg, runDiffLoop_snd git rest]

/-- Claim C5: the bundle drops exactly the commits whose retrieval
fails or whose diff trims to empty, keeping the remainder in order:
the loop output is the order-preserving map of the surviving sublist;
and the spec's [A,B,C]-with-B-failing example. -/
theorem diffBundle_drops_exactly :
    (∀ (git : String → Except String String) (parsed : List CommitTuple),
      (runDiffLoop git parsed).1 =
        (parsed.filter (diffKept git)).map (diffBlockOf git))
    ∧ (runDiffLoop
        (fun h => if h = "b" then .error "failed" else .ok ("diff " ++ h))
        [⟨"A", "", "u", "d1", "a"⟩, ⟨"B", "", "u", "d2", "b"⟩,
         ⟨"C", "", "u", "d3", "c"⟩]).1 =
      [mkDiffBlock ⟨"A", "", "u", "d1", "a"⟩ "diff a",
       mkDiffBlock ⟨"C", "", "u", "d3", "c"⟩ "diff c"] :=
  ⟨runDiffLoop_fst, by decide⟩

/-! ### Claim C1: where the re-sort happens and how invalid dates
compare -/

/-- A concrete date-parsing environment for counterexamples: two valid
dates and every other string an Invalid Date. -/
def timeEx : String → Option Int := fun d =>
  if d = "2020-01-01" then some 100
  else if d = "2021-01-01" then some 200
  else none

def cOld : CommitTuple := ⟨"old", "", "au", "2020-01-01", "o1"⟩

def cNew : CommitTuple := ⟨"new", "", "au", "2021-01-01", "n1"⟩

def cBad : CommitTuple := ⟨"bad", "", "au", "not-a-date", "b1"⟩

/-- Claim C1 counterexample: the diff-bundle pipeline does not re-sort.
With the parse order [cOld, cNew] (dates ascending), the pipeline
invokes git for cOld first, while the date-descending sort of the same
array starts with cNew; moreover the comparator returns 0 between a
valid-dated and an invalid-dated commit (in both argument orders), so
an unparsable date does not sort as the smallest timestamp. -/
theorem diffPipeline_unsorted_cex :
    (runDiffLoop (fun h => .ok ("diff " ++ h)) [cOld, cNew]).2 = ["o1", "n1"]
    ∧ sortCommits timeEx [cOld, cNew] = [cNew, cOld]
    ∧ (["o1", "n1"] : List String) ≠ ["n1", "o1"]
    ∧ descCompare timeEx cNew cBad = 0
    ∧ descCompare timeEx cBad cNew = 0 := by
  refine ⟨by decide, by decide, by decide, by decide, by decide⟩

/-- Claim C1 (amended): only the commit quick-pick flow re-sorts the
parsed array, by date descending; whenever every date parses the sorted
output is a permutation of the input that is sorted by non-increasing
parsed date; an entry with an unparsable date has comparator value 0
against every entry (NaN is coerced to +0), so it compares equal rather
than as the smallest timestamp; and the diff-bundle pipeline performs
no re-sort — it issues its git invocations in parsed order. -/
theorem descSort_spec :
    (∀ (f : String → Int) (l : List CommitTuple),
      List.Sorted (fun a b => f b.date ≤ f a.date)
          (sortCommits (fun s => some (f s)) l)
        ∧ (sortCommits (fun s => some (f s)) l).Perm l)
    ∧ (∀ (time : String → Option Int) (a b : CommitTuple),
        time a.date = none ∨ time b.date = none → descCompare time a b = 0)
    ∧ (∀ (git : String → Except String String) (parsed : List CommitTuple),
        (runDiffLoop git parsed).2 = parsed.map (fun c => bareCommitRef c.ref)) := by
  refine ⟨?_, ?_, fun git parsed => runDiffLoop_snd git parsed⟩
  · intro f l
    have htot : IsTotal CommitTuple (commitBefore (fun s => some (f s))) := by
      constructor
      intro a b
      simp only [commitBefore, descCompare, jsDateDiff]
      omega
    have htrans : IsTrans CommitTuple (commitBefore (fun s => some (f s))) := by
      constructor
      intro a b c
      simp only [commitBefore, descCompare, jsDateDiff]
      omega
    constructor
    · have h := List.sorted_insertionSort
        (r := commitBefore (fun s => some (f s))) l
      refine List.Pairwise.imp ?_ h
      intro a b hab
      simp only [commitBefore, descCompare, jsDateDiff] at hab
      omega
    · exact List.perm_insertionSort _ l
  · intro time a b h
    rcases h with h | h
    · simp only [descCompare, h]
      rcases hb : time b.date with _ | tb <;> simp [jsDateDiff]
    · simp [descCompare, jsDateDiff, h]

/-- Witness for claim C1 (amended) at concrete inputs. -/
theorem descSort_spec_witness :
    descCompare timeEx cBad cNew = 0 :=
  descSort_spec.2.1 timeEx cBad cNew (Or.inl (by decide))

/-! ### Claim C10: the bare commit reference -/

/-- The suffix of the list after its last '/' (the whole list when no
'/' occurs): the spec-side reading of "last '/'-separated segment". -/
def afterLastSlash : List Char → List Char
  | [] => []
  | c :: cs =>
    if '/' ∈ cs then afterLastSlash cs
    else if c = '/' then cs
    else c :: cs

theorem splitChar_ne_nil (sep : Char) : ∀ l, splitChar sep l ≠ []
  | [] => by simp [splitChar]
  | c :: cs => by
    rw [splitChar]
    by_cases h : c = sep
    · simp [h]
    · simp only [h, if_false]
      rcases hs : splitChar sep cs with _ | ⟨s, rest⟩ <;> simp

theorem splitChar_no_sep {sep : Char} :
    ∀ {l : List Char}, sep ∉ l → splitChar sep l = [l]
  | [], _ => rfl
  | c :: cs, h => by
    have h1 : ¬ c = sep := fun hc => h (hc ▸ List.mem_cons_self c cs)
    have h2 : sep ∉ cs := fun hm => h (List.mem_cons_of_mem c hm)
    rw [splitChar, splitChar_no_sep h2]
    simp [h1]

theorem splitChar_two_le {sep : Char} :
    ∀ {l : List Char}, sep ∈ l → 2 ≤ (splitChar sep l).length
  | [], h => absurd h (List.not_mem_nil sep)
  | c :: cs, h => by
    rw [splitChar]
    by_cases hc : c = sep
    · simp only [hc, if_true, List.length_cons]
      rcases hs : splitChar sep cs with _ | ⟨s, rest⟩
      · exact absurd hs (splitChar_ne_nil sep cs)
      · simp
    · have h2 : sep ∈ cs := by
        rcases List.mem_cons.mp h with h1 | h1
        · exact absurd h1.symm hc
        · exact h1
      have ih := splitChar_two_le h2
      rcases hs : splitChar sep cs with _ | ⟨s, rest⟩
      · exact absurd hs (splitChar_ne_nil sep cs)
      · rw [hs] at ih
        simp only [hc, if_false, List.length_cons] at ih ⊢
        omega

theorem afterLastSlash_no_slash :
    ∀ {l : List Char}, '/' ∉ l → afterLastSlash l = l
  | [], _ => rfl
  | c :: cs, h => by
    have h1 : ¬ c = '/' := fun hc => h (hc ▸ List.mem_cons_self c cs)
    have h2 : '/' ∉ cs := fun hm => h (List.mem_cons_of_mem c hm)
    rw [afterLastSlash]
    simp [h1, h2]

theorem splitChar_getLastD :
    ∀ l : List Char, (splitChar '/' l).getLastD [] = afterLastSlash l
  | [] => rfl
  | c :: cs => by
    have ih := splitChar_getLastD cs
    rw [splitChar, afterLastSlash]
    by_cases hc : c = '/'
    · simp only [hc, if_true]
      by_cases hm : '/' ∈ cs
      · rw [if_pos hm, ← ih]
        rcases hs : splitChar '/' cs with _ | ⟨s, rest⟩
        · exact absurd hs (splitChar_ne_nil '/' cs)
        · simp [List.getLastD_cons]
      · rw [if_neg hm, splitChar_no_sep hm]
        simp [List.getLastD_cons]
    · simp only [hc, if_false]
      by_cases hm : '/' ∈ cs
      · rw [if_pos hm, ← ih]
        have hlen := splitChar_two_le hm
        rcases hs : splitChar '/' cs with _ | ⟨s, rest⟩
        · exact absurd hs (splitChar_ne_nil '/' cs)
        · rw [hs] at hlen
          rcases rest with _ | ⟨r2, rest2⟩
          · simp at hlen
          · simp [List.getLastD_cons]
      · rw [if_neg hm, splitChar_no_sep hm]
        simp [hc]

/-- Claim C10: the bare reference passed to git show is the last
'/'-separated segment of the stored reference when that segment is
non-empty (hence the reference itself when it contains no '/'), and the
whole reference when the last segment is empty; and the diff pipeline
passes exactly these bare references to the git show collaborator. -/
theorem bareCommitRef_lastSegment :
    (∀ r : String, afterLastSlash r.data ≠ [] →
      bareCommitRef r = ⟨afterLastSlash r.data⟩)
    ∧ (∀ r : String, afterLastSlash r.data = [] → bareCommitRef r = r)
    ∧ (∀ r : String, '/' ∉ r.data → bareCommitRef r = r)
    ∧ (∀ (git : String → Except String String) (parsed : List CommitTuple),
        (runDiffLoop git parsed).2 = parsed.map (fun c => bareCommitRef c.ref)) := by
  refine ⟨?_, ?_, ?_, fun git parsed => runDiffLoop_snd git parsed⟩
  · intro r h
    rw [bareCommitRef, splitChar_getLastD]
    simp [h]
  · intro r h
    rw [bareCommitRef, splitChar_getLastD]
    simp [h]
  · intro r h
    rw [bareCommitRef, splitChar_getLastD, afterLastSlash_no_slash h]
    by_cases hr : r.data = []
    · simp [hr]
    · simp [hr, string_mk_data]

/-- Witness for claim C10 at concrete references. -/
theorem bareCommitRef_lastSegment_witness :
    bareCommitRef "x/y/ab12" = ⟨afterLastSlash ("x/y/ab12").data⟩
    ∧ bareCommitRef "abc/" = "abc/"
    ∧ bareCommitRef "abc" = "abc" :=
  ⟨bareCommitRef_lastSegment.1 "x/y/ab12" (by decide),
   bareCommitRef_lastSegment.2.1 "abc/" (by decide),
   bareCommitRef_lastSegment.2.2.1 "abc" (by decide)⟩

/-! ### Incremental reindexing (`getChangedFilesSinceLastIndex`,
`reindexChangedFilesCommand`, `indexWorkspaceCommand`) -/

/-- The process-wide mutable state the indexing commands touch:
`lastIndexTime`, epoch seconds or absent. -/
structure ExtState where
  lastIndexTime : Option Nat
deriving Repr, DecidableEq

/-- One external invocation issued by the reindex command, for tracing
how many and which subprocesses run. -/
inductive Invocation where
  | gitDiffQuery (since : Nat)
  | indexFile (file : String)
deriving Repr, DecidableEq

/-- `path.join(workspacePath, file)` for the plain relative paths git
emits (no normalization is exercised by them). -/
def joinPath (a b : String) : String :=
  if a = "" then b else a ++ "/" ++ b

/-- The stdout postprocessing of `getChangedFilesSinceLastIndex`:
split on newlines, trim, drop empties, join each with the workspace
root. -/
def parseChangedFiles (workspacePath stdout : String) : List String :=
  (((splitChar '\n' stdout.data).map trimChars).filter
    (fun l => !l.isEmpty)).map (fun l => joinPath workspacePath ⟨l⟩)

/-- `getChangedFilesSinceLastIndex`: short-circuits to the empty list
when `lastIndexTime` is falsy (absent, or the epoch value 0), otherwise
runs the git change-list query; a query failure propagates.  Also
returns the trace of invocations made. -/
def getChangedFilesSinceLastIndex (st : ExtState)
    (gitDiff : Nat → Except String String) (workspacePath : String) :
    Except String (List String) × List Invocation :=
  match st.lastIndexTime with
  | none => (.ok [], [])
  | some t =>
    if t = 0 then (.ok [], [])
    else
      match gitDiff t with
      | .error e => (.error e, [.gitDiffQuery t])
      | .ok out => (.ok (parseChangedFiles workspacePath out), [.gitDiffQuery t])

/-- The per-file loop of `reindexChangedFilesCommand`: one `indexfile`
invocation per changed path, sequentially; the promise rejection on the
first failing invocation aborts the loop.  Returns the trace of
`indexfile` invocations (the failing one included, since its process
did run) and the overall outcome, with the number of files on
success. -/
def indexBatch (idx : String → Except String Unit) :
    List String → List Invocation × Except String Nat
  | [] => ([], .ok 0)
  | f :: rest =>
    match idx f with
    | .error e => ([.indexFile f], .error e)
    | .ok _ =>
      let (calls, res) := indexBatch idx rest
      (.indexFile f :: calls, res.map (· + 1))

/-- The possible user-visible outcomes of `reindexChangedFilesCommand`. -/
inductive ReindexResult where
  | noChanges
  | success (count : Nat)
  | failure (err : String)
deriving Repr, DecidableEq

/-- `reindexChangedFilesCommand` after the version gate and workspace
checks: compute the changed files; an empty list resolves immediately;
otherwise run the batch; on success record the current time as the new
`lastIndexTime`, on any failure (change-list query or batch) leave the
state untouched and surface the error. -/
def reindexChangedFiles (st : ExtState) (now : Nat)
    (gitDiff : Nat → Except String String)
    (idx : String → Except String Unit) (workspacePath : String) :
    ExtState × ReindexResult × List Invocation :=
  match getChangedFilesSinceLastIndex st gitDiff workspacePath with
  | (.error e, calls) => (st, .failure e, calls)
  | (.ok changedFiles, calls) =>
    if changedFiles.isEmpty then (st, .noChanges, calls)
    else
      match indexBatch idx changedFiles with
      | (bcalls, .error e) => (st, .failure e, calls ++ bcalls)
      | (bcalls, .ok _) =>
        (⟨some now⟩, .success changedFiles.length, calls ++ bcalls)

/-- `indexWorkspaceCommand`'s exec callback: on failure reject and leave
the state untouched; on success record the current time as the new
`lastIndexTime`. -/
def indexWorkspaceRun (st : ExtState) (now : Nat)
    (run : Except String String) : ExtState × Except String Unit :=
  match run with
  | .error e => (st, .error e)
  | .ok _ => (⟨some now⟩, .ok ())

/-- Claim C2 counterexample: with changed files a, b, c and the
`indexfile` invocation failing on b, the command indexes a, attempts b,
never attempts c, and fails as a whole — the failing item is not
skipped and the batch does not continue. -/
theorem reindexBatch_aborts_cex :
    reindexChangedFiles ⟨some 5⟩ 99 (fun _ => .ok "a\nb\nc")
        (fun f => if f = "/w/b" then .error "boom" else .ok ()) "/w" =
      (⟨some 5⟩, .failure "boom",
       [.gitDiffQuery 5, .indexFile "/w/a", .indexFile "/w/b"]) := by
  decide

theorem indexBatch_calls (idx : String → Except String Unit) :
    ∀ files : List String,
      (indexBatch idx files).1 =
        ((files.takeWhile (fun f => (idx f).toBool)
          ++ (files.dropWhile (fun f => (idx f).toBool)).take 1).map
            Invocation.indexFile)
  | [] => rfl
  | f :: rest => by
    rcases hf : idx f with e | u
    · simp [indexBatch, hf, List.takeWhile_cons, List.dropWhile_cons,
        Except.toBool]
    · simp [indexBatch, hf, List.takeWhile_cons, List.dropWhile_cons,
        Except.toBool, indexBatch_calls idx rest]

theorem indexBatch_ok_iff (idx : String → Except String Unit) :
    ∀ files : List String,
      ((indexBatch idx files).2.toBool = true ↔
        ∀ f ∈ files, (idx f).toBool = true)
  | [] => by simp [indexBatch, Except.toBool]
  | f :: rest => by
    rcases hf : idx f with e | u
    · simp [indexBatch, hf, Except.toBool]
    · rcases hr : indexBatch idx rest with ⟨calls, res⟩
      have ih := indexBatch_ok_iff idx rest
      rw [hr] at ih
      rcases res with e2 | n <;>
        simp_all [indexBatch, hf, Except.toBool, Except.map]

/-- Claim C2 (amended): in the diff pipeline a per-commit failure is
logged and skipped and the loop continues — every commit's diff is
attempted; in the incremental reindex batch, by contrast, the per-file
loop stops at the first failing `indexfile` invocation (later files are
not attempted) and the whole batch fails exactly when some file's
invocation fails; a failure of the batch's setup step (the change-list
query) fails the batch with no `indexfile` invocation at all. -/
theorem batch_failure_isolation :
    (∀ (git : String → Except String String) (parsed : List CommitTuple),
      (runDiffLoop git parsed).2 = parsed.map (fun c => bareCommitRef c.ref))
    ∧ (∀ (idx : String → Except String Unit) (files : List String),
        (indexBatch idx files).1 =
          ((files.takeWhile (fun f => (idx f).toBool)
            ++ (files.dropWhile (fun f => (idx f).toBool)).take 1).map
              Invocation.indexFile))
    ∧ (∀ (idx : String → Except String Unit) (files : List String),
        ((indexBatch idx files).2.toBool = true ↔
          ∀ f ∈ files, (idx f).toBool = true))
    ∧ (∀ st now gitDiff idx ws t e, st.lastIndexTime = some t → t ≠ 0 →
        gitDiff t = .error e →
        reindexChangedFiles st now gitDiff idx ws =
          (st, .failure e, [.gitDiffQuery t])) := by
  refine ⟨fun git parsed => runDiffLoop_snd git parsed,
    indexBatch_calls, indexBatch_ok_iff, ?_⟩
  intro st now gitDiff idx ws t e ht ht0 hg
  rw [reindexChangedFiles, getChangedFilesSinceLastIndex, ht]
  simp [ht0, hg]

/-- Witness for claim C2 (amended): a failing change-list query fails
the batch with no indexfile invocation. -/
theorem batch_failure_isolation_witness :
    reindexChangedFiles ⟨some 7⟩ 99 (fun _ => .error "gitfail")
        (fun _ => .ok ()) "/w" =
      (⟨some 7⟩, .failure "gitfail", [.gitDiffQuery 7]) :=
  batch_failure_isolation.2.2.2 ⟨some 7⟩ 99 (fun _ => .error "gitfail")
    (fun _ => .ok ()) "/w" 7 "gitfail" rfl (by decide) rfl

/-- Claim C7: an empty changed-path list — including the case of an
absent prior timestamp, where the change tracker answers with the empty
list without running git — resolves immediately as a no-op success with
zero external invocations beyond the change-list query itself. -/
theorem reindex_empty_noop :
    (∀ st now gitDiff idx ws, st.lastIndexTime = none →
      reindexChangedFiles st now gitDiff idx ws = (st, .noChanges, []))
    ∧ (∀ st now gitDiff idx ws t out, st.lastIndexTime = some t → t ≠ 0 →
        gitDiff t = .ok out → parseChangedFiles ws out = [] →
        reindexChangedFiles st now gitDiff idx ws =
          (st, .noChanges, [.gitDiffQuery t])) := by
  constructor
  · intro st now gitDiff idx ws h
    rcases st with ⟨lt⟩
    cases h
    rfl
  · intro st now gitDiff idx ws t out ht ht0 hg hp
    rw [reindexChangedFiles, getChangedFilesSinceLastIndex, ht]
    simp [ht0, hg, hp]

/-- Witness for claim C7 at concrete inputs. -/
theorem reindex_empty_noop_witness :
    reindexChangedFiles ⟨none⟩ 99 (fun _ => .ok "x") (fun _ => .ok ()) "/w" =
      (⟨none⟩, .noChanges, [])
    ∧ reindexChangedFiles ⟨some 5⟩ 99 (fun _ => .ok "  \n ")
        (fun _ => .ok ()) "/w" =
      (⟨some 5⟩, .noChanges, [.gitDiffQuery 5]) :=
  ⟨reindex_empty_noop.1 ⟨none⟩ 99 (fun _ => .ok "x") (fun _ => .ok ()) "/w" rfl,
   reindex_empty_noop.2 ⟨some 5⟩ 99 (fun _ => .ok "  \n ") (fun _ => .ok ())
     "/w" 5 "  \n " rfl (by decide) rfl (by decide)⟩

/-- Claim C8: both indexing paths record the current time as the new
`lastIndexTime` exactly on success, and leave the state untouched on
failure. -/
theorem indexTimestamp_frame :
    (∀ st now gitDiff idx ws n,
      (reindexChangedFiles st now gitDiff idx ws).2.1 = .success n →
      (reindexChangedFiles st now gitDiff idx ws).1 = ⟨some now⟩)
    ∧ (∀ st now gitDiff idx ws e,
        (reindexChangedFiles st now gitDiff idx ws).2.1 = .failure e →
        (reindexChangedFiles st now gitDiff idx ws).1 = st)
    ∧ (∀ st now out, indexWorkspaceRun st now (.ok out) = (⟨some now⟩, .ok ()))
    ∧ (∀ st now e, indexWorkspaceRun st now (.error e) = (st, .error e)) := by
  refine ⟨?_, ?_, fun st now out => rfl, fun st now e => rfl⟩
  · intro st now gitDiff idx ws n h
    rw [reindexChangedFiles] at h ⊢
    rcases hg : getChangedFilesSinceLastIndex st gitDiff ws with ⟨res, calls⟩
    rw [hg] at h
    rcases res with e | files
    · simp at h
    · by_cases he : files.isEmpty
      · simp [he] at h
      · rcases hb : indexBatch idx files with ⟨bcalls, bres⟩
        simp only [he, Bool.false_eq_true, if_false] at h ⊢
        rw [hb] at h ⊢
        rcases bres with e2 | k
        · simp at h
        · simp
  · intro st now gitDiff idx ws e h
    rw [reindexChangedFiles] at h ⊢
    rcases hg : getChangedFilesSinceLastIndex st gitDiff ws with ⟨res, calls⟩
    rw [hg] at h
    rcases res with e2 | files
    · simp
    · by_cases he : files.isEmpty
      · simp [he] at h
      · rcases hb : indexBatch idx files with ⟨bcalls, bres⟩
        simp only [he, Bool.false_eq_true, if_false] at h ⊢
        rw [hb] at h ⊢
        rcases bres with e2 | k
        · simp
        · simp at h

/-- Witness for claim C8 at concrete inputs: a succeeding batch sets
the timestamp, a failing one leaves it unchanged. -/
theorem indexTimestamp_frame_witness :
    (reindexChangedFiles ⟨some 5⟩ 99 (fun _ => .ok "a\nb\nc")
      (fun _ => .ok ()) "/w").1 = ⟨some 99⟩
    ∧ (reindexChangedFiles ⟨some 5⟩ 99 (fun _ => .ok "a\nb\nc")
        (fun f => if f = "/w/b" then .error "boom" else .ok ()) "/w").1 =
      ⟨some 5⟩ :=
  ⟨indexTimestamp_frame.1 ⟨some 5⟩ 99 (fun _ => .ok "a\nb\nc")
      (fun _ => .ok ()) "/w" 3 (by decide),
   indexTimestamp_frame.2.1 ⟨some 5⟩ 99 (fun _ => .ok "a\nb\nc")
      (fun f => if f = "/w/b" then .error "boom" else .ok ()) "/w" "boom"
      (by decide)⟩

/-! ### The version gate (`checkContextPilotVersion`) -/

def MIN_CONTEXTPILOT_VERSION : String := "0.9.0"

/-- The candidate binary locations probed in order. -/
def possiblePaths : List String :=
  ["contextpilot", "~/.local/bin/contextpilot", "~/.cargo/bin/contextpilot",
   "/usr/local/bin/contextpilot", "/usr/bin/contextpilot"]

/-- JS `p.replace("~", home)`: replace the first tilde only. -/
def replaceTilde (home : String) : List Char → List Char
  | [] => []
  | c :: cs => if c = '~' then home.data ++ cs else c :: replaceTilde home cs

/-- The home-expanded candidate list. -/
def expandedPaths (home : String) : List String :=
  possiblePaths.map (fun p => ⟨replaceTilde home p.data⟩)

/-- What probing one candidate path with `--version` yields: an exec
error, or the captured stdout (possibly empty, which the code treats
like an error). -/
inductive ProbeOutcome where
  | failed
  | output (stdout : String)

/-- Match of the regex `contextpilot\s+(\d+\.\d+\.\d+)` anchored at the
start of the list: the captured version text. -/
def matchAnnounceAt (l : List Char) : Option (List Char) :=
  if ("contextpilot").data.isPrefixOf l then
    let r := l.drop ("contextpilot").data.length
    if (r.takeWhile jsIsSpace).isEmpty then none
    else
      match matchVerAt (r.dropWhile jsIsSpace) with
      | some (_, chars) => some chars
      | none => none
  else none

/-- Leftmost match of `contextpilot\s+(\d+\.\d+\.\d+)`. -/
def findAnnounce : List Char → Option (List Char)
  | [] => none
  | c :: cs =>
    match matchAnnounceAt (c :: cs) with
    | some v => some v
    | none => findAnnounce cs

/-- The `tryNextPath` recursion: an exec error or empty stdout moves on
to the next candidate; otherwise the trimmed stdout is matched against
the version-announcement pattern — no match or an incompatible version
resolves false without scanning further, a compatible one resolves
true.  Returns the resolved value and the number of probe invocations
actually run. -/
def tryPaths (probe : String → ProbeOutcome) : List String → Bool × Nat
  | [] => (false, 0)
  | p :: rest =>
    match probe p with
    | .failed =>
      let (r, n) := tryPaths probe rest
      (r, n + 1)
    | .output stdout =>
      if stdout = "" then
        let (r, n) := tryPaths probe rest
        (r, n + 1)
      else
        match findAnnounce (trimChars stdout.data) with
        | none => (false, 1)
        | some versionChars =>
          (isVersionCompatible ⟨versionChars⟩ MIN_CONTEXTPILOT_VERSION, 1)

/-- `checkContextPilotVersion` as a function of the memo cell
`cachedVersionCheck`: a cached boolean is returned without probing;
otherwise the candidate scan runs and its result — success or failure —
is stored in the cell.  Returns (result, new cell, probes run). -/
def checkContextPilotVersion (cache : Option Bool) (home : String)
    (probe : String → ProbeOutcome) : Bool × Option Bool × Nat :=
  match cache with
  | some b => (b, some b, 0)
  | none =>
    let (r, n) := tryPaths probe (expandedPaths home)
    (r, some r, n)

/-- Claim C9: a cached result short-circuits with zero probe runs; the
first completed call always fills the cache with its own result; hence
a second call after a first completed one — whatever its outcome —
returns the memoized boolean and runs no version-report invocation. -/
theorem versionCheck_memoized :
    (∀ (b : Bool) home probe,
      checkContextPilotVersion (some b) home probe = (b, some b, 0))
    ∧ (∀ home probe, (checkContextPilotVersion none home probe).2.1 =
        some (checkContextPilotVersion none home probe).1)
    ∧ (∀ home probe home2 probe2,
        checkContextPilotVersion
            (checkContextPilotVersion none home probe).2.1 home2 probe2 =
          ((checkContextPilotVersion none home probe).1,
           (checkContextPilotVersion none home probe).2.1, 0)) := by
  refine ⟨fun b home probe => rfl, ?_, ?_⟩
  · intro home probe
    rcases h : tryPaths probe (expandedPaths home) with ⟨r, n⟩
    simp [checkContextPilotVersion, h]
  · intro home probe home2 probe2
    rcases h : tryPaths probe (expandedPaths home) with ⟨r, n⟩
    simp [checkContextPilotVersion, h]

end ContextPilot
